import Mathlib

/-!
Verification of the UniChess sources (`src/app/lib/stockfish.ts`,
`src/app/components/ChessBoard.tsx`) against their specification.

The rules engine itself (legal move generation, move application) lives in
the external `chess.js` dependency, so it is modelled from the
specification (sections 3, 4.2, 4.3); everything else is translated
directly from the TypeScript sources.
-/

namespace UniChess

/-! ## Piece and color basics (spec section 3) -/

/-- Piece colors. -/
inductive Color
  | white
  | black
deriving DecidableEq, Repr

/-- Piece kinds. -/
def Color.opp : Color → Color
  | .white => .black
  | .black => .white

/-- The six chess piece kinds. -/
inductive PieceKind
  | pawn
  | knight
  | bishop
  | rook
  | queen
  | king
deriving DecidableEq, Repr

/-- A piece is a kind together with a color (spec section 3). -/
structure Piece where
  kind : PieceKind
  color : Color
deriving DecidableEq, Repr

/-! ## Static evaluation (translated from `stockfish.ts`) -/

/-- The first space-separated field of a FEN string, as the character
sequence the evaluators iterate over: `fen.split(' ')[0]`. -/
def placementField (fen : String) : List Char :=
  fen.data.takeWhile (fun c => c ≠ ' ')

/-- The `values` table of `StockfishEngine.fallbackEval`
(`P:1, N:3, B:3.25, R:5, Q:9, K:0`, negated for lowercase). -/
def fallbackValue (c : Char) : Option ℚ :=
  if c = 'P' then some 1 else if c = 'N' then some 3
  else if c = 'B' then some (13/4) else if c = 'R' then some 5
  else if c = 'Q' then some 9 else if c = 'K' then some 0
  else if c = 'p' then some (-1) else if c = 'n' then some (-3)
  else if c = 'b' then some (-(13/4)) else if c = 'r' then some (-5)
  else if c = 'q' then some (-9) else if c = 'k' then some 0
  else none

/-- `StockfishEngine.fallbackEval`: fold the value table over the
placement field, skipping characters absent from the table. -/
def fallbackEval (fen : String) : ℚ :=
  (placementField fen).foldl
    (fun score ch =>
      match fallbackValue ch with
      | some v => score + v
      | none => score) 0

/-- The `pieces` table of the page-level `simpleEval`
(bishops count `3`, not `3.25`). -/
def simpleValue (c : Char) : Option ℚ :=
  if c = 'P' then some 1 else if c = 'N' then some 3
  else if c = 'B' then some 3 else if c = 'R' then some 5
  else if c = 'Q' then some 9 else if c = 'K' then some 0
  else if c = 'p' then some (-1) else if c = 'n' then some (-3)
  else if c = 'b' then some (-3) else if c = 'r' then some (-5)
  else if c = 'q' then some (-9) else if c = 'k' then some 0
  else none

/-- Page-level `simpleEval`. -/
def simpleEval (fen : String) : ℚ :=
  (placementField fen).foldl
    (fun score ch =>
      match simpleValue ch with
      | some v => score + v
      | none => score) 0

/-- Spec section 4.5 piece values:
Pawn=1, Knight=3, Bishop=3.25, Rook=5, Queen=9, King=0. -/
def specPieceValue : PieceKind → ℚ
  | .pawn => 1
  | .knight => 3
  | .bishop => 13/4
  | .rook => 5
  | .queen => 9
  | .king => 0

/-- Sign of a color: positive favors White (spec section 4.5). -/
def colorSign : Color → ℚ
  | .white => 1
  | .black => -1

/-- FEN piece-letter decoding: uppercase is White, lowercase Black. -/
def charPiece (c : Char) : Option Piece :=
  if c = 'P' then some ⟨.pawn, .white⟩ else if c = 'N' then some ⟨.knight, .white⟩
  else if c = 'B' then some ⟨.bishop, .white⟩ else if c = 'R' then some ⟨.rook, .white⟩
  else if c = 'Q' then some ⟨.queen, .white⟩ else if c = 'K' then some ⟨.king, .white⟩
  else if c = 'p' then some ⟨.pawn, .black⟩ else if c = 'n' then some ⟨.knight, .black⟩
  else if c = 'b' then some ⟨.bishop, .black⟩ else if c = 'r' then some ⟨.rook, .black⟩
  else if c = 'q' then some ⟨.queen, .black⟩ else if c = 'k' then some ⟨.king, .black⟩
  else none

/-- Spec section 4.5 static evaluation, stated as the spec words it:
the signed sum, over the pieces in the FEN placement field, of the piece
values weighted by color. -/
def specStaticEval (fen : String) : ℚ :=
  (((placementField fen).filterMap charPiece).map
    (fun p => colorSign p.color * specPieceValue p.kind)).sum

/-! ## Engine protocol commands (translated from `stockfish.ts`) -/

/-- The UCI command strings the wrappers post to the engine process,
with their payloads. -/
inductive Cmd
  | uci
  | isReadyCmd
  | setoptionThreads (n : Nat)
  | setoptionHash (n : Nat)
  | setoptionSkill (level : Int)
  | positionFen (fen : String)
  | goDepth (depth : Nat)
  | stop
  | quit
deriving DecidableEq, Repr

/-- An analysis callback payload (`AnalysisResult` in the source). -/
structure AnalysisResult where
  depth : Nat
  score : Option ℚ
  mate : Option Int
  bestMove : Option String
  pv : String
deriving DecidableEq, Repr

/-- What one `StockfishEngine.analyze` call does: when the worker is
null it invokes the analysis callback once (fallback); otherwise it
posts a command sequence to the worker. -/
inductive AnalyzeEffect
  | fallbackCallback (r : AnalysisResult)
  | engineCommands (cmds : List Cmd)
deriving DecidableEq, Repr

/-- Commands posted by `StockfishEngine.analyze` when the worker is
present (`stop`, `position fen …`, `go depth …`). -/
def analyzeCmds (fen : String) (depth : Nat) : List Cmd :=
  [.stop, .positionFen fen, .goDepth depth]

/-- `StockfishEngine.analyze` (`workerPresent` models `this.worker !== null`). -/
def analyze (workerPresent : Bool) (fen : String) (depth : Nat) : AnalyzeEffect :=
  if workerPresent = false then
    .fallbackCallback ⟨depth, some (fallbackEval fen), none, none, ""⟩
  else
    .engineCommands (analyzeCmds fen depth)

/-- Commands posted by `StockfishEngine.findBestMove` when the worker is
present (`stop`, skill option, `position fen …`, `go depth …`). -/
def findBestMoveCmds (workerPresent : Bool) (fen : String) (depth : Nat)
    (skillLevel : Int) : List Cmd :=
  if workerPresent = false then []
  else [.stop, .setoptionSkill skillLevel, .positionFen fen, .goDepth depth]

/-- Value the `findBestMove` promise resolves with. `reply` is the move
delivered by the best-move callback within the 10-second safety timeout,
`none` when no such answer arrived in time. A null worker resolves to
`null` immediately. -/
def findBestMoveResult (workerPresent : Bool) (reply : Option String) :
    Option String :=
  if workerPresent = false then none else reply

/-- Commands posted by the page-level `StockfishEngine.start`: nothing
when the worker is absent or not ready, otherwise the skill option,
`position fen …` and `go depth …` — with no `stop`. -/
def startCmds (workerReady : Bool) (fen : String) (depth : Nat)
    (skillLevel : Int) : List Cmd :=
  if workerReady = false then []
  else [.setoptionSkill skillLevel, .positionFen fen, .goDepth depth]

/-- A command trace satisfies "stop before position" when every
`position fen` command is preceded by some `stop` command. -/
def stopBeforePositionAux : Bool → List Cmd → Bool
  | _, [] => true
  | sentStop, c :: rest =>
    match c with
    | .positionFen _ => sentStop && stopBeforePositionAux sentStop rest
    | .stop => stopBeforePositionAux true rest
    | _ => stopBeforePositionAux sentStop rest

/-- "Stop before position" ordering over a whole trace. -/
def stopBeforePosition (cmds : List Cmd) : Bool :=
  stopBeforePositionAux false cmds

/-- Does the character sequence begin with the given pattern
(`String.prototype.startsWith`)? -/
def startsWithChars (l pat : List Char) : Bool :=
  l.take pat.length == pat

/-- JS `String.prototype.split(' ')` on a character sequence: split at
every single space, adjacent separators yielding empty fields. -/
def splitOnSpacesAux : List Char → List Char → List (List Char)
  | [], acc => [acc.reverse]
  | c :: rest, acc =>
    if c = ' ' then acc.reverse :: splitOnSpacesAux rest []
    else splitOnSpacesAux rest (c :: acc)

/-- JS `msg.split(' ')`. -/
def splitOnSpaces (l : List Char) : List (List Char) :=
  splitOnSpacesAux l []

/-- The best-move branch of `StockfishEngine.handleMessage`: the value
handed to the `onBestMove` callback, `none` when the callback is not
invoked. JS `msg.split(' ')[1]` is the second split field, an absent
field (`undefined`) being falsy like the empty string. -/
def bestMoveOfMessage (msg : String) : Option String :=
  if startsWithChars msg.data "bestmove".data then
    let move : String := ⟨(splitOnSpaces msg.data).getD 1 []⟩
    if move != "" && move != "(none)" then some move else none
  else none

/-- The `bestmove` handler installed by the page-level
`StockfishEngine.start`: the value handed to `onMove`, with the same
filtering as `handleMessage`. -/
def startHandlerBestMove (msg : String) : Option String :=
  if startsWithChars msg.data "bestmove".data then
    let move : String := ⟨(splitOnSpaces msg.data).getD 1 []⟩
    if move != "" && move != "(none)" then some move else none
  else none

/-! ## Rules engine, modelled from the spec

The legality engine of the source is the external `chess.js` library,
absent from the repository; the following definitions are modelled from
the specification (sections 3, 4.2, 4.3): board representation, attack
detection, pseudo-legal generation, check-safety filtering, and move
application. Files and ranks are 0-based; rank 0 is White's back rank. -/

/-- Modelled from the spec: a square is a coordinate pair
(file 0–7, rank 0–7), spec section 3. -/
abbrev Square := Fin 8 × Fin 8

/-- Modelled from the spec: a board maps squares to optional pieces. -/
abbrev Board := Square → Option Piece

/-- File coordinate as an integer. -/
def fileZ (s : Square) : Int := s.1.val

/-- Rank coordinate as an integer. -/
def rankZ (s : Square) : Int := s.2.val

/-- Build a square from integer coordinates, `none` out of [0,7]×[0,7]. -/
def mkSquare? (f r : Int) : Option Square :=
  if h : 0 ≤ f ∧ f < 8 ∧ 0 ≤ r ∧ r < 8 then
    some (⟨f.toNat, by omega⟩, ⟨r.toNat, by omega⟩)
  else none

/-- Functional board update. -/
def boardSet (b : Board) (s : Square) (p : Option Piece) : Board :=
  fun t => if t = s then p else b t

/-- Modelled from the spec: the four independent castling rights
booleans, spec section 3. -/
structure CastlingRights where
  whiteKingside : Bool
  whiteQueenside : Bool
  blackKingside : Bool
  blackQueenside : Bool
deriving DecidableEq, Repr

/-- Modelled from the spec: `GameState` owns a board, castling rights,
an optional en-passant target, side to move, and the halfmove/fullmove
counters, spec section 3. -/
structure GameState where
  board : Board
  turn : Color
  castling : CastlingRights
  epTarget : Option Square
  halfmove : Nat
  fullmove : Nat

instance : DecidableEq Board := fun a b => Fintype.decidablePiFintype a b

instance : DecidableEq GameState := fun a b =>
  decidable_of_iff
    (a.board = b.board ∧ a.turn = b.turn ∧ a.castling = b.castling ∧
      a.epTarget = b.epTarget ∧ a.halfmove = b.halfmove ∧ a.fullmove = b.fullmove)
    (by cases a; cases b; simp)

/-- Modelled from the spec: flags carried by a move, spec section 3. -/
structure MoveFlags where
  isCapture : Bool
  isCastle : Bool
  isEnPassant : Bool
deriving DecidableEq, Repr

/-- Modelled from the spec: a move is from-square, to-square, optional
promotion kind, and flags, spec section 3 (`from` is a Lean keyword, so
the fields are `fromSq`/`toSq`). -/
structure Move where
  fromSq : Square
  toSq : Square
  promotion : Option PieceKind
  flags : MoveFlags
deriving DecidableEq, Repr

/-- Knight jump offsets. -/
def knightOffsets : List (Int × Int) :=
  [(1, 2), (2, 1), (2, -1), (1, -2), (-1, -2), (-2, -1), (-2, 1), (-1, 2)]

/-- King step offsets. -/
def kingOffsets : List (Int × Int) :=
  [(1, 0), (1, 1), (0, 1), (-1, 1), (-1, 0), (-1, -1), (0, -1), (1, -1)]

/-- Rook / orthogonal ray directions. -/
def rookDirs : List (Int × Int) := [(1, 0), (-1, 0), (0, 1), (0, -1)]

/-- Bishop / diagonal ray directions. -/
def bishopDirs : List (Int × Int) := [(1, 1), (1, -1), (-1, 1), (-1, -1)]

/-- Offset a square, `none` when leaving the board. -/
def shift? (s : Square) (d : Int × Int) : Option Square :=
  mkSquare? (fileZ s + d.1) (rankZ s + d.2)

/-- First piece met walking from `s` in direction `d` (fuel-bounded;
8 steps cover the board). -/
def rayFirst (b : Board) (s : Square) (d : Int × Int) : Nat → Option Piece
  | 0 => none
  | n + 1 =>
    match shift? s d with
    | none => none
    | some t =>
      match b t with
      | some p => some p
      | none => rayFirst b t d n

/-- Forward rank direction of a color's pawns. -/
def pawnDir : Color → Int
  | .white => 1
  | .black => -1

/-- Modelled from the spec: `isSquareAttacked(Board, Square, byColor)`
checks all enemy piece types' reach — knight jumps, king adjacency,
color-directional pawn diagonals, and sliding rays (spec section 4.2). -/
def isSquareAttacked (b : Board) (s : Square) (byColor : Color) : Bool :=
  (knightOffsets.any fun d =>
    match shift? s d with
    | some t => b t == some ⟨.knight, byColor⟩
    | none => false) ||
  (kingOffsets.any fun d =>
    match shift? s d with
    | some t => b t == some ⟨.king, byColor⟩
    | none => false) ||
  (([-1, 1] : List Int).any fun df =>
    match mkSquare? (fileZ s + df) (rankZ s - pawnDir byColor) with
    | some t => b t == some ⟨.pawn, byColor⟩
    | none => false) ||
  (rookDirs.any fun d =>
    match rayFirst b s d 8 with
    | some p => p.color == byColor && (p.kind == .rook || p.kind == .queen)
    | none => false) ||
  (bishopDirs.any fun d =>
    match rayFirst b s d 8 with
    | some p => p.color == byColor && (p.kind == .bishop || p.kind == .queen)
    | none => false)

/-- All 64 squares, file-major. -/
def allSquares : List Square :=
  (List.finRange 8).flatMap fun f => (List.finRange 8).map fun r => (f, r)

/-- Whether some king of color `c` on board `b` stands attacked. -/
def kingAttacked (b : Board) (c : Color) : Bool :=
  allSquares.any fun s =>
    b s == some ⟨.king, c⟩ && isSquareAttacked b s (Color.opp c)

/-- A plain (non-castle, non-en-passant, non-promotion) move. -/
def mkSimpleMove (s t : Square) (cap : Bool) : Move :=
  ⟨s, t, none, ⟨cap, false, false⟩⟩

/-- Pseudo-legal single-step moves (knight and king steps): the target
must be on the board and not occupied by an own piece (spec section 4.2). -/
def stepMoves (b : Board) (c : Color) (s : Square) (offs : List (Int × Int)) :
    List Move :=
  offs.filterMap fun d =>
    match shift? s d with
    | none => none
    | some t =>
      match b t with
      | some q => if q.color == c then none else some (mkSimpleMove s t true)
      | none => some (mkSimpleMove s t false)

/-- One sliding ray: empty squares are quiet targets, the first occupied
square ends the ray, captured when held by the enemy (spec section 4.2). -/
def slideAux (b : Board) (c : Color) (s0 : Square) (d : Int × Int) :
    Nat → Square → List Move
  | 0, _ => []
  | n + 1, cur =>
    match shift? cur d with
    | none => []
    | some t =>
      match b t with
      | none => mkSimpleMove s0 t false :: slideAux b c s0 d n t
      | some q => if q.color == c then [] else [mkSimpleMove s0 t true]

/-- Pseudo-legal sliding moves along the given directions. -/
def slideMoves (b : Board) (c : Color) (s : Square) (dirs : List (Int × Int)) :
    List Move :=
  dirs.flatMap fun d => slideAux b c s d 8 s

/-- Promotion choices generated on reaching the last rank. -/
def promoKinds : List PieceKind := [.queen, .rook, .bishop, .knight]

/-- Double-advance start rank of a color's pawns. -/
def pawnStartRank : Color → Int
  | .white => 1
  | .black => 6

/-- Promotion rank of a color's pawns. -/
def pawnLastRank : Color → Int
  | .white => 7
  | .black => 0

/-- Expand a pawn move into its four promotions on the last rank
(spec section 4.2: promotion when reaching the last rank). -/
def withPromotions (c : Color) (m : Move) : List Move :=
  if rankZ m.toSq = pawnLastRank c then
    promoKinds.map fun k => { m with promotion := some k }
  else [m]

/-- Modelled from the spec: pawn pseudo-legal moves — single and double
advance, diagonal captures, en passant onto `EnPassantTarget`, and
promotions (spec section 4.2). -/
def pawnMoves (st : GameState) (c : Color) (s : Square) : List Move :=
  let b := st.board
  let dir := pawnDir c
  let fwd :=
    match mkSquare? (fileZ s) (rankZ s + dir) with
    | some t =>
      if b t == none then
        withPromotions c (mkSimpleMove s t false) ++
        (if rankZ s = pawnStartRank c then
          match mkSquare? (fileZ s) (rankZ s + 2 * dir) with
          | some t2 => if b t2 == none then [mkSimpleMove s t2 false] else []
          | none => []
        else [])
      else []
    | none => []
  let caps := ([-1, 1] : List Int).flatMap fun df =>
    match mkSquare? (fileZ s + df) (rankZ s + dir) with
    | some t =>
      match b t with
      | some q =>
        if q.color == c then [] else withPromotions c (mkSimpleMove s t true)
      | none =>
        if st.epTarget == some t then [⟨s, t, none, ⟨true, false, true⟩⟩] else []
    | none => []
  fwd ++ caps

/-- Modelled from the spec: castling generation — the corresponding
right still held, the rook on its corner, the squares between empty, and
the king neither passing through nor landing on an attacked square
(spec section 4.2). -/
def castleMoves (st : GameState) (c : Color) (s : Square) : List Move :=
  let b := st.board
  let r0 : Fin 8 := if c == .white then 0 else 7
  let enemy := Color.opp c
  let kingsideOk :=
    (if c == .white then st.castling.whiteKingside else st.castling.blackKingside) &&
    b (5, r0) == none && b (6, r0) == none &&
    b (7, r0) == some ⟨.rook, c⟩ &&
    !(isSquareAttacked b (5, r0) enemy) && !(isSquareAttacked b (6, r0) enemy)
  let queensideOk :=
    (if c == .white then st.castling.whiteQueenside else st.castling.blackQueenside) &&
    b (1, r0) == none && b (2, r0) == none && b (3, r0) == none &&
    b (0, r0) == some ⟨.rook, c⟩ &&
    !(isSquareAttacked b (3, r0) enemy) && !(isSquareAttacked b (2, r0) enemy)
  (if s == ((4 : Fin 8), r0) && kingsideOk then
    [⟨s, (6, r0), none, ⟨false, true, false⟩⟩] else []) ++
  (if s == ((4 : Fin 8), r0) && queensideOk then
    [⟨s, (2, r0), none, ⟨false, true, false⟩⟩] else [])

/-- Pseudo-legal moves of one piece (spec section 4.2). -/
def pieceMovesFrom (st : GameState) (s : Square) (p : Piece) : List Move :=
  match p.kind with
  | .pawn => pawnMoves st p.color s
  | .knight => stepMoves st.board p.color s knightOffsets
  | .bishop => slideMoves st.board p.color s bishopDirs
  | .rook => slideMoves st.board p.color s rookDirs
  | .queen => slideMoves st.board p.color s (rookDirs ++ bishopDirs)
  | .king => stepMoves st.board p.color s kingOffsets ++ castleMoves st p.color s

/-- Modelled from the spec: all pseudo-legal moves of the side to move. -/
def pseudoLegalMoves (st : GameState) : List Move :=
  allSquares.flatMap fun s =>
    match st.board s with
    | some p => if p.color == st.turn then pieceMovesFrom st s p else []
    | none => []

/-- Rank the pawn passes over on a double advance. -/
def midRank (a b : Fin 8) : Fin 8 :=
  ⟨(a.val + b.val) / 2, by have h1 := a.isLt; have h2 := b.isLt; omega⟩

/-- Rook relocation of a castle move, keyed by the king's target file. -/
def castleRookUpdate (b : Board) (dest : Square) : Board :=
  if dest.1.val = 6 then
    boardSet (boardSet b (7, dest.2) none) ((5 : Fin 8), dest.2) (b (7, dest.2))
  else if dest.1.val = 2 then
    boardSet (boardSet b (0, dest.2) none) ((3 : Fin 8), dest.2) (b (0, dest.2))
  else b

/-- Revoke the castling right owned by a rook-origin corner square
(spec section 4.3: movement from, or capture on, the square). -/
def revokeByCorner (cr : CastlingRights) (s : Square) : CastlingRights :=
  if s = ((0 : Fin 8), (0 : Fin 8)) then { cr with whiteQueenside := false }
  else if s = ((7 : Fin 8), (0 : Fin 8)) then { cr with whiteKingside := false }
  else if s = ((0 : Fin 8), (7 : Fin 8)) then { cr with blackQueenside := false }
  else if s = ((7 : Fin 8), (7 : Fin 8)) then { cr with blackKingside := false }
  else cr

/-- Castling-rights update of a move (spec section 4.3). -/
def updateCastlingRights (cr : CastlingRights) (p : Piece) (m : Move) :
    CastlingRights :=
  let cr1 :=
    if p.kind == .king then
      (if p.color == .white then
        { cr with whiteKingside := false, whiteQueenside := false }
      else
        { cr with blackKingside := false, blackQueenside := false })
    else cr
  revokeByCorner (revokeByCorner cr1 m.fromSq) m.toSq

/-- Modelled from the spec: unchecked move application — board update
(including promotion, en-passant removal and the castle rook), en-passant
target, castling rights, halfmove clock, fullmove number, and side to
move (spec section 4.3). A move from an empty square leaves the state
unchanged; legality is checked separately by `applyMove`. -/
def applyMoveRaw (st : GameState) (m : Move) : GameState :=
  match st.board m.fromSq with
  | none => st
  | some p =>
    let movedKind := match m.promotion with | some k => k | none => p.kind
    let b1 := boardSet (boardSet st.board m.fromSq none) m.toSq
      (some ⟨movedKind, p.color⟩)
    let b2 := if m.flags.isEnPassant then boardSet b1 (m.toSq.1, m.fromSq.2) none
      else b1
    let b3 := if m.flags.isCastle then castleRookUpdate b2 m.toSq else b2
    let newEp : Option Square :=
      if p.kind == .pawn &&
         (rankZ m.toSq - rankZ m.fromSq == 2 || rankZ m.fromSq - rankZ m.toSq == 2)
      then some (m.fromSq.1, midRank m.fromSq.2 m.toSq.2) else none
    { board := b3
      turn := Color.opp st.turn
      castling := updateCastlingRights st.castling p m
      epTarget := newEp
      halfmove := if p.kind == .pawn || m.flags.isCapture then 0 else st.halfmove + 1
      fullmove := if st.turn == .black then st.fullmove + 1 else st.fullmove }

/-- The check-safety filter of spec section 4.2: apply the move to a
scratch state and test whether the moving side's king is attacked. -/
def leavesOwnKingInCheck (st : GameState) (m : Move) : Bool :=
  kingAttacked (applyMoveRaw st m).board st.turn

/-- Modelled from the spec: `generateAllLegalMoves(GameState)` —
pseudo-legal generation followed by the check-safety filter
(spec section 4.2). -/
def generateAllLegalMoves (st : GameState) : List Move :=
  (pseudoLegalMoves st).filter fun m => !(leavesOwnKingInCheck st m)

/-- Modelled from the spec: `generateLegalMoves(GameState, Square)` —
the legal moves whose origin is the given square (spec section 4.2). -/
def generateLegalMoves (st : GameState) (s : Square) : List Move :=
  (generateAllLegalMoves st).filter fun m => m.fromSq == s

/-- Modelled from the spec: `applyMove` rejects a move absent from
`generateLegalMoves` for its origin square (spec section 4.3). -/
def applyMove (st : GameState) (m : Move) : Option GameState :=
  if m ∈ generateLegalMoves st m.fromSq then some (applyMoveRaw st m) else none

/-- Back-rank piece arrangement of the standard initial position. -/
def backRankKind (f : Fin 8) : PieceKind :=
  match f.val with
  | 0 => .rook
  | 1 => .knight
  | 2 => .bishop
  | 3 => .queen
  | 4 => .king
  | 5 => .bishop
  | 6 => .knight
  | _ => .rook

/-- The standard initial board. -/
def initialBoard : Board := fun s =>
  if s.2.val = 0 then some ⟨backRankKind s.1, .white⟩
  else if s.2.val = 1 then some ⟨.pawn, .white⟩
  else if s.2.val = 6 then some ⟨.pawn, .black⟩
  else if s.2.val = 7 then some ⟨backRankKind s.1, .black⟩
  else none

/-- The standard initial game state. -/
def initialGameState : GameState :=
  ⟨initialBoard, .white, ⟨true, true, true, true⟩, none, 0, 1⟩

/-- Parse an algebraic square label such as `"e4"`. -/
def squareOfString (s : String) : Option Square :=
  match s.data with
  | [f, r] => mkSquare? ((f.toNat : Int) - 97) ((r.toNat : Int) - 49)
  | _ => none

/-- Render a square as its algebraic label. -/
def stringOfSquare (s : Square) : String :=
  ⟨[Char.ofNat (97 + s.1.val), Char.ofNat (49 + s.2.val)]⟩

/-! ## Application state and handlers (translated from the page
component and `ChessBoard.tsx`; `chess.js` calls are replaced by the
spec-modelled rules engine above) -/

/-- Decode a chess.js promotion letter. -/
def promoKindOfString (s : String) : Option PieceKind :=
  if s = "q" then some .queen
  else if s = "r" then some .rook
  else if s = "b" then some .bishop
  else if s = "n" then some .knight
  else none

/-- Modelled from the spec: the `chess.js` `game.move({from, to,
promotion})` call — accept a legal move matching the given origin and
target squares, the promotion letter selecting among promotion moves;
`null` (here `none`) on anything else (spec sections 4.3 and 6:
ambiguous or illegal input is rejected, never silently coerced). -/
def moveFromInput (g : GameState) (fromS toS promoS : String) :
    Option (Move × GameState) :=
  match squareOfString fromS, squareOfString toS with
  | some f, some t =>
    match (generateAllLegalMoves g).find? (fun m =>
        m.fromSq == f && m.toSq == t &&
        (m.promotion == none || m.promotion == promoKindOfString promoS)) with
    | some m => some (m, applyMoveRaw g m)
    | none => none
  | _, _ => none

/-- The game-status values of the page component. -/
inductive GameStatus
  | playing
  | checkmate
  | draw
  | stalemate
  | timeout
  | resigned
deriving DecidableEq, Repr

/-- The page component's state touched by the move handlers: the game,
its status, the last-move marker, the recorded move list, the clock
flag, and the bot-thinking flag. -/
structure AppState where
  game : GameState
  gameStatus : GameStatus
  lastMove : Option (String × String)
  moveList : List Move
  clockRunning : Bool
  botThinking : Bool
deriving DecidableEq

/-- JS `promotion || 'q'`: an omitted (`undefined`) or empty promotion
argument falls back to the queen letter. -/
def promoOrQueen : Option String → String
  | none => "q"
  | some s => if s = "" then "q" else s

/-- The page component's `handleMove(from, to, promotion?)`: reject when
the game is over, try the move on a fresh game, reject when illegal,
otherwise install the new game, record the move and the last-move
marker, start the clock, and report success. -/
def handleMove (st : AppState) (fromS toS : String) (promotion : Option String) :
    Bool × AppState :=
  if st.gameStatus ≠ .playing then (false, st)
  else
    match moveFromInput st.game fromS toS (promoOrQueen promotion) with
    | none => (false, st)
    | some (m, g) =>
      (true,
       { st with
          game := g
          lastMove := some (fromS, toS)
          moveList := st.moveList ++ [m]
          clockRunning := true })

/-- The page component's `handleBotMove(move)`: an empty move only
clears the thinking flag; otherwise the coordinate move is attempted,
installed when legal, and the thinking flag cleared either way. -/
def handleBotMove (st : AppState) (move : String) : AppState :=
  if move = "" then { st with botThinking := false }
  else
    match moveFromInput st.game (move.take 2) ((move.drop 2).take 2)
        (move.drop 4) with
    | some (m, g) =>
      { st with
          game := g
          lastMove := some (move.take 2, (move.drop 2).take 2)
          moveList := st.moveList ++ [m]
          botThinking := false }
    | none => { st with botThinking := false }

/-- `ChessBoard.getLegalMoves`: target labels of the legal moves from
one square (`game.moves({square, verbose: true}).map(m => m.to)`). -/
def getLegalMovesUI (g : GameState) (square : String) : List String :=
  match squareOfString square with
  | some s => (generateLegalMoves g s).map fun m => stringOfSquare m.toSq
  | none => []

/-- `ChessBoard.getPiece`: the piece on a square, if any. -/
def getPieceUI (g : GameState) (square : String) : Option Piece :=
  match squareOfString square with
  | some s => g.board s
  | none => none

/-- `isMyPiece` in `ChessBoard.handleSquareClick`: the piece color
matches the board orientation. -/
def isMyPiece (p : Piece) (orientation : Color) : Bool :=
  (orientation == .white && p.color == .white) ||
  (orientation == .black && p.color == .black)

/-- Outcome of one `ChessBoard.handleSquareClick` call: the argument
tuple of the `onMove` invocation when one happened, and the new
selection state. -/
structure ClickResult where
  calledMove : Option (String × String × String)
  selectedSquare : Option String
  possibleMoves : List String
deriving DecidableEq, Repr

/-- The selection phase `handleSquareClick` falls through to: select the
clicked square when it holds a piece of the player's color, else
deselect; `called` carries an `onMove` invocation already made. -/
def selectPhase (g : GameState) (orientation : Color) (square : String)
    (called : Option (String × String × String)) : ClickResult :=
  match getPieceUI g square with
  | some p =>
    if isMyPiece p orientation then
      ⟨called, some square, getLegalMovesUI g square⟩
    else ⟨called, none, []⟩
  | none => ⟨called, none, []⟩

/-- `ChessBoard.handleSquareClick`: with a selection whose legal targets
contain the clicked square, `onMove(selected, square, 'q')` is invoked;
on success the selection is cleared, otherwise (and in every other case)
the selection phase runs. `onMoveSuccess` is the value the parent's
`onMove` returned. -/
def handleSquareClick (g : GameState) (orientation : Color)
    (selected : Option String) (onMoveSuccess : Bool) (square : String) :
    ClickResult :=
  match selected with
  | some sel =>
    if square ∈ getLegalMovesUI g sel then
      if onMoveSuccess then ⟨some (sel, square, "q"), none, []⟩
      else selectPhase g orientation square (some (sel, square, "q"))
    else selectPhase g orientation square none
  | none => selectPhase g orientation square none

/-! ## Chess960 starting position (translated from `random960Position`)

Each `Math.floor(Math.random() * list.length)` draw is modelled by an
arbitrary natural number indexing the list modulo its length (the JS
expression always produces an index below the length, which the modulo
reduction leaves unchanged). The construction is split into its
successive placement stages. -/

/-- One random index draw into a list. -/
def pick (l : List Nat) (r : Nat) : Nat := l.getD (r % l.length) 0

/-- Indices of the still-empty cells
(`backRank.map((p, i) => p === '' ? i : -1).filter(i => i >= 0)`);
`none` models the empty string. -/
def emptyIndices (l : List (Option Char)) : List Nat :=
  l.enum.filterMap fun p => if p.2 = none then some p.1 else none

/-- Stage 1: bishops on a dark square (`[0,2,4,6]`) and a light square
(`[1,3,5,7]`). -/
def rank960AfterBishops (d1 d2 : Nat) : List (Option Char) :=
  let darkSquares : List Nat := [0, 2, 4, 6]
  let lightSquares : List Nat := [1, 3, 5, 7]
  ((List.replicate 8 (none : Option Char)).set (pick darkSquares d1) (some 'b')).set
    (pick lightSquares d2) (some 'b')

/-- Stage 2: the queen on a random remaining empty square. -/
def rank960AfterQueen (d1 d2 d3 : Nat) : List (Option Char) :=
  let br := rank960AfterBishops d1 d2
  br.set (pick (emptyIndices br) d3) (some 'q')

/-- Stage 3: the first knight. -/
def rank960AfterKnight1 (d1 d2 d3 d4 : Nat) : List (Option Char) :=
  let br := rank960AfterQueen d1 d2 d3
  br.set (pick (emptyIndices br) d4) (some 'n')

/-- Stage 4: the second knight. -/
def rank960AfterKnights (d1 d2 d3 d4 d5 : Nat) : List (Option Char) :=
  let br := rank960AfterKnight1 d1 d2 d3 d4
  br.set (pick (emptyIndices br) d5) (some 'n')

/-- Ascending insertion used by `sortAsc`. -/
def insertAsc (x : Nat) : List Nat → List Nat
  | [] => [x]
  | y :: ys => if x ≤ y then x :: y :: ys else y :: insertAsc x ys

/-- Ascending insertion sort (JS `.sort((a, b) => a - b)`). -/
def sortAsc : List Nat → List Nat
  | [] => []
  | x :: xs => insertAsc x (sortAsc xs)

/-- The completed back rank: the three remaining empty squares, sorted
ascending, receive rook, king, rook in that order. -/
def random960BackRank (d1 d2 d3 d4 d5 : Nat) : List (Option Char) :=
  let br := rank960AfterKnights d1 d2 d3 d4 d5
  match sortAsc (emptyIndices br) with
  | [a, b, c] => ((br.set a (some 'r')).set b (some 'k')).set c (some 'r')
  | _ => br

/-- `random960Position`: the FEN built from the back rank (lowercase for
Black on rank 8, uppercase for White on rank 1). -/
def random960Position (d1 d2 d3 d4 d5 : Nat) : String :=
  let brChars : List Char := (random960BackRank d1 d2 d3 d4 d5).filterMap id
  String.mk brChars ++ "/pppppppp/8/8/8/8/PPPPPPPP/" ++
    String.mk (brChars.map Char.toUpper) ++ " w KQkq - 0 1"

/-- Indices carrying a given character. -/
def charIndices (c : Char) (l : List Char) : List Nat :=
  l.enum.filterMap fun p => if p.2 = c then some p.1 else none

/-- The king stands strictly between the two rooks (`rookC`/`kingC`
select the letter case of the rank under test). -/
def kingBetweenRooks (rookC kingC : Char) (l : List Char) : Bool :=
  match charIndices rookC l, charIndices kingC l with
  | [r1, r2], [k] => decide (r1 < k ∧ k < r2)
  | _, _ => false

/-- The two bishops stand on squares of opposite colors. -/
def bishopsOppositeColors (bishopC : Char) (l : List Char) : Bool :=
  match charIndices bishopC l with
  | [b1, b2] => decide (b1 % 2 ≠ b2 % 2)
  | _ => false

/-- Both back-rank invariants of the claim, for the lowercase (Black)
rank and its uppercase (White) mirror. -/
def rank960Invariants (br : List (Option Char)) : Bool :=
  let l := br.filterMap id
  kingBetweenRooks 'r' 'k' l && bishopsOppositeColors 'b' l &&
  kingBetweenRooks 'R' 'K' (l.map Char.toUpper) &&
  bishopsOppositeColors 'B' (l.map Char.toUpper)

/-! ## Concrete values used by witnesses -/

/-- The double pawn advance e2–e4 as a `Move` value. -/
def e2e4Move : Move :=
  ⟨((4 : Fin 8), (1 : Fin 8)), ((4 : Fin 8), (3 : Fin 8)), none, ⟨false, false, false⟩⟩

/-- A fresh application state on the standard initial position. -/
def appState0 : AppState := ⟨initialGameState, .playing, none, [], false, false⟩

/-! ## Helper lemmas -/

/-- Evaluator folds are accumulator-shifted sums of per-character values. -/
lemma foldl_value_sum (v : Char → Option ℚ) (l : List Char) (a : ℚ) :
    l.foldl (fun score ch =>
        match v ch with
        | some x => score + x
        | none => score) a
      = a + (l.map (fun c => (v c).getD 0)).sum := by
  induction l generalizing a with
  | nil => simp
  | cons c cs ih =>
    have hstep : (match v c with
        | some x => a + x
        | none => a) = a + (v c).getD 0 := by
      cases v c <;> simp
    simp only [List.foldl_cons, List.map_cons, List.sum_cons, ih, hstep]
    ring

/-- Summing over a `filterMap` equals summing the optional value with
default zero. -/
lemma sum_filterMap_piece (l : List Char) (h : Piece → ℚ) :
    ((l.filterMap charPiece).map h).sum
      = (l.map (fun c => ((charPiece c).map h).getD 0)).sum := by
  induction l with
  | nil => rfl
  | cons c cs ih =>
    cases hc : charPiece c <;>
      simp [List.filterMap_cons, hc, ih]

/-- Per-character agreement of the `fallbackEval` table with the spec's
signed piece values. -/
lemma fallbackValue_spec (c : Char) :
    (fallbackValue c).getD 0
      = ((charPiece c).map fun p => colorSign p.color * specPieceValue p.kind).getD 0 := by
  by_cases h1 : c = 'P'
  · subst h1; simp [fallbackValue, charPiece, colorSign, specPieceValue]
  by_cases h2 : c = 'N'
  · subst h2; simp [fallbackValue, charPiece, colorSign, specPieceValue]
  by_cases h3 : c = 'B'
  · subst h3; simp [fallbackValue, charPiece, colorSign, specPieceValue]
  by_cases h4 : c = 'R'
  · subst h4; simp [fallbackValue, charPiece, colorSign, specPieceValue]
  by_cases h5 : c = 'Q'
  · subst h5; simp [fallbackValue, charPiece, colorSign, specPieceValue]
  by_cases h6 : c = 'K'
  · subst h6; simp [fallbackValue, charPiece, colorSign, specPieceValue]
  by_cases h7 : c = 'p'
  · subst h7; simp [fallbackValue, charPiece, colorSign, specPieceValue]
  by_cases h8 : c = 'n'
  · subst h8; simp [fallbackValue, charPiece, colorSign, specPieceValue]
  by_cases h9 : c = 'b'
  · subst h9; simp [fallbackValue, charPiece, colorSign, specPieceValue]
  by_cases h10 : c = 'r'
  · subst h10; simp [fallbackValue, charPiece, colorSign, specPieceValue]
  by_cases h11 : c = 'q'
  · subst h11; simp [fallbackValue, charPiece, colorSign, specPieceValue]
  by_cases h12 : c = 'k'
  · subst h12; simp [fallbackValue, charPiece, colorSign, specPieceValue]
  simp [fallbackValue, charPiece, h1, h2, h3, h4, h5, h6, h7, h8, h9, h10, h11, h12]

/-- Per-character agreement of the two evaluator tables away from
bishop letters. -/
lemma fallbackValue_eq_simpleValue (c : Char) (hB : c ≠ 'B') (hb : c ≠ 'b') :
    (fallbackValue c).getD 0 = (simpleValue c).getD 0 := by
  by_cases h1 : c = 'P'
  · subst h1; simp [fallbackValue, simpleValue]
  by_cases h2 : c = 'N'
  · subst h2; simp [fallbackValue, simpleValue]
  by_cases h4 : c = 'R'
  · subst h4; simp [fallbackValue, simpleValue]
  by_cases h5 : c = 'Q'
  · subst h5; simp [fallbackValue, simpleValue]
  by_cases h6 : c = 'K'
  · subst h6; simp [fallbackValue, simpleValue]
  by_cases h7 : c = 'p'
  · subst h7; simp [fallbackValue, simpleValue]
  by_cases h8 : c = 'n'
  · subst h8; simp [fallbackValue, simpleValue]
  by_cases h10 : c = 'r'
  · subst h10; simp [fallbackValue, simpleValue]
  by_cases h11 : c = 'q'
  · subst h11; simp [fallbackValue, simpleValue]
  by_cases h12 : c = 'k'
  · subst h12; simp [fallbackValue, simpleValue]
  simp [fallbackValue, simpleValue, h1, h2, hB, h4, h5, h6, h7, h8, hb, h10, h11, h12]

/-- The best-move message filter only passes non-empty moves different
from `"(none)"`. -/
lemma bestMoveOfMessage_filter (msg m : String)
    (h : bestMoveOfMessage msg = some m) : m ≠ "" ∧ m ≠ "(none)" := by
  unfold bestMoveOfMessage at h
  by_cases hsw : startsWithChars msg.data "bestmove".data = true
  · rw [if_pos hsw] at h
    by_cases hc : (((⟨(splitOnSpaces msg.data).getD 1 []⟩ : String) != "") &&
        ((⟨(splitOnSpaces msg.data).getD 1 []⟩ : String) != "(none)")) = true
    · rw [if_pos hc] at h
      obtain rfl := Option.some.inj h
      simpa [bne] using hc
    · rw [if_neg hc] at h
      cases h
  · rw [if_neg hsw] at h
    cases h

/-- The selection phase hands the already-made `onMove` call through
unchanged. -/
lemma selectPhase_calledMove (g : GameState) (o : Color) (sq : String)
    (called : Option (String × String × String)) :
    (selectPhase g o sq called).calledMove = called := by
  unfold selectPhase
  rcases hp : getPieceUI g sq with _ | p
  · rfl
  · by_cases hmy : isMyPiece p o = true <;> simp [hmy]

/-- The selection phase selects a square only when it is the clicked one
and holds a piece of the player's color. -/
lemma selectPhase_selected (g : GameState) (o : Color) (sq : String)
    (called : Option (String × String × String)) (s : String)
    (h : (selectPhase g o sq called).selectedSquare = some s) :
    s = sq ∧ ∃ pc, getPieceUI g sq = some pc ∧ isMyPiece pc o = true := by
  unfold selectPhase at h
  rcases hp : getPieceUI g sq with _ | pc
  · rw [hp] at h
    simp at h
  · rw [hp] at h
    by_cases hmy : isMyPiece pc o = true
    · simp [hmy] at h
      exact ⟨h.symm, pc, rfl, hmy⟩
    · simp [hmy] at h

/-- A draw reduced modulo a list's known length picks the same element. -/
lemma pick_mod_len (l : List Nat) (r n : Nat) (h : l.length = n) :
    pick l (r % n) = pick l r := by
  subst h
  unfold pick
  congr 1
  exact Nat.mod_mod_of_dvd r dvd_rfl

/-- After the two bishops, six back-rank squares remain empty. -/
lemma emptyIndices_bishops_len : ∀ (a b : Fin 4),
    (emptyIndices (rank960AfterBishops a.val b.val)).length = 6 := by decide

/-- After the queen, five squares remain empty. -/
lemma emptyIndices_queen_len : ∀ (a b : Fin 4) (c : Fin 6),
    (emptyIndices (rank960AfterQueen a.val b.val c.val)).length = 5 := by decide

/-- After the first knight, four squares remain empty. -/
lemma emptyIndices_knight1_len : ∀ (a b : Fin 4) (c : Fin 6) (d : Fin 5),
    (emptyIndices (rank960AfterKnight1 a.val b.val c.val d.val)).length = 4 := by
  decide

/-- Bishop placement only depends on the draws modulo 4. -/
lemma rank960AfterBishops_mod (d1 d2 : Nat) :
    rank960AfterBishops d1 d2 = rank960AfterBishops (d1 % 4) (d2 % 4) := by
  simp only [rank960AfterBishops]
  rw [pick_mod_len [0, 2, 4, 6] d1 4 rfl, pick_mod_len [1, 3, 5, 7] d2 4 rfl]

/-- Queen placement only depends on the draws modulo 4, 4, 6. -/
lemma rank960AfterQueen_mod (d1 d2 d3 : Nat) :
    rank960AfterQueen d1 d2 d3
      = rank960AfterQueen (d1 % 4) (d2 % 4) (d3 % 6) := by
  have hlen : (emptyIndices (rank960AfterBishops (d1 % 4) (d2 % 4))).length = 6 :=
    emptyIndices_bishops_len ⟨d1 % 4, by omega⟩ ⟨d2 % 4, by omega⟩
  simp only [rank960AfterQueen, rank960AfterBishops_mod d1 d2]
  rw [pick_mod_len _ d3 6 hlen]

/-- First-knight placement only depends on the draws modulo 4, 4, 6, 5. -/
lemma rank960AfterKnight1_mod (d1 d2 d3 d4 : Nat) :
    rank960AfterKnight1 d1 d2 d3 d4
      = rank960AfterKnight1 (d1 % 4) (d2 % 4) (d3 % 6) (d4 % 5) := by
  have hlen :
      (emptyIndices (rank960AfterQueen (d1 % 4) (d2 % 4) (d3 % 6))).length = 5 :=
    emptyIndices_queen_len ⟨d1 % 4, by omega⟩ ⟨d2 % 4, by omega⟩ ⟨d3 % 6, by omega⟩
  simp only [rank960AfterKnight1, rank960AfterQueen_mod d1 d2 d3]
  rw [pick_mod_len _ d4 5 hlen]

/-- Knight placements only depend on the draws modulo 4, 4, 6, 5, 4. -/
lemma rank960AfterKnights_mod (d1 d2 d3 d4 d5 : Nat) :
    rank960AfterKnights d1 d2 d3 d4 d5
      = rank960AfterKnights (d1 % 4) (d2 % 4) (d3 % 6) (d4 % 5) (d5 % 4) := by
  have hlen : (emptyIndices
      (rank960AfterKnight1 (d1 % 4) (d2 % 4) (d3 % 6) (d4 % 5))).length = 4 :=
    emptyIndices_knight1_len ⟨d1 % 4, by omega⟩ ⟨d2 % 4, by omega⟩
      ⟨d3 % 6, by omega⟩ ⟨d4 % 5, by omega⟩
  simp only [rank960AfterKnights, rank960AfterKnight1_mod d1 d2 d3 d4]
  rw [pick_mod_len _ d5 4 hlen]

/-- The whole back rank only depends on the draws modulo 4, 4, 6, 5, 4. -/
lemma random960BackRank_mod (d1 d2 d3 d4 d5 : Nat) :
    random960BackRank d1 d2 d3 d4 d5
      = random960BackRank (d1 % 4) (d2 % 4) (d3 % 6) (d4 % 5) (d5 % 4) := by
  simp only [random960BackRank, rank960AfterKnights_mod d1 d2 d3 d4 d5]

/-- The invariants hold on all 1920 reduced draw combinations. -/
lemma rank960Invariants_key : ∀ (a b : Fin 4) (c : Fin 6) (d : Fin 5) (e : Fin 4),
    rank960Invariants (random960BackRank a.val b.val c.val d.val e.val) = true := by
  decide

/-! ## Claim theorems -/

/-- C4: for every sequence of random draws, the back rank built by
`random960Position` keeps the king strictly between the two rooks and
the two bishops on opposite-colored squares — on the lowercase (Black)
rank and its uppercase (White) mirror alike — and the returned FEN
places exactly that rank as rank 8 and its uppercase image as rank 1. -/
theorem claim_C4 (d1 d2 d3 d4 d5 : Nat) :
    rank960Invariants (random960BackRank d1 d2 d3 d4 d5) = true ∧
    random960Position d1 d2 d3 d4 d5 =
      String.mk ((random960BackRank d1 d2 d3 d4 d5).filterMap id) ++
        "/pppppppp/8/8/8/8/PPPPPPPP/" ++
        String.mk (((random960BackRank d1 d2 d3 d4 d5).filterMap id).map
          Char.toUpper) ++ " w KQkq - 0 1" := by
  refine ⟨?_, rfl⟩
  rw [random960BackRank_mod]
  exact rank960Invariants_key ⟨d1 % 4, by omega⟩ ⟨d2 % 4, by omega⟩
    ⟨d3 % 6, by omega⟩ ⟨d4 % 5, by omega⟩ ⟨d5 % 4, by omega⟩

/-- C5: for every FEN string, `fallbackEval` equals the spec's signed
sum of piece values (Pawn=1, Knight=3, Bishop=3.25, Rook=5, Queen=9,
King=0) over the placement field, positive for White and negative for
Black. -/
theorem claim_C5 (fen : String) : fallbackEval fen = specStaticEval fen := by
  unfold fallbackEval specStaticEval
  rw [foldl_value_sum, sum_filterMap_piece, zero_add]
  simp only [fallbackValue_spec]

/-- C6 counterexample: on a FEN holding a single white bishop the two
evaluators disagree — `fallbackEval` scores 13/4 = 3.25, `simpleEval`
scores 3 — refuting "equal for every FEN string". -/
theorem claim_C6_counterexample :
    decide (fallbackEval "B7/8/8/8/8/8/8/8 w - - 0 1"
      = simpleEval "B7/8/8/8/8/8/8/8 w - - 0 1") = false := by
  have h1 : fallbackEval "B7/8/8/8/8/8/8/8 w - - 0 1" = 13/4 := by
    simp [fallbackEval, placementField, fallbackValue]
  have h2 : simpleEval "B7/8/8/8/8/8/8/8 w - - 0 1" = 3 := by
    simp [simpleEval, placementField, simpleValue]
  rw [h1, h2]
  exact decide_eq_false (by norm_num)

/-- C6 (amended): the two material evaluators return equal scores for
every FEN string whose placement field contains no bishop letter
(`'B'`/`'b'`) — their value tables differ only there, `fallbackEval`
counting a bishop 3.25 and `simpleEval` 3, which makes them disagree on
the counterexample's lone-bishop FEN. -/
theorem claim_C6 (fen : String) (hB : 'B' ∉ placementField fen)
    (hb : 'b' ∉ placementField fen) : fallbackEval fen = simpleEval fen := by
  unfold fallbackEval simpleEval
  rw [foldl_value_sum, foldl_value_sum]
  have h : ∀ c ∈ placementField fen,
      (fallbackValue c).getD 0 = (simpleValue c).getD 0 := fun c hc =>
    fallbackValue_eq_simpleValue c (fun h => hB (h ▸ hc)) (fun h => hb (h ▸ hc))
  rw [List.map_congr_left h]

/-- C6 witness: the amended equality evaluated on a bishop-free FEN. -/
theorem claim_C6_witness :
    fallbackEval "rn1qk1nr/pppppppp/8/8/8/8/PPPPPPPP/RN1QK1NR w KQkq - 0 1"
      = simpleEval "rn1qk1nr/pppppppp/8/8/8/8/PPPPPPPP/RN1QK1NR w KQkq - 0 1" :=
  claim_C6 _ (by decide) (by decide)

/-- C3 counterexample: the page-level `StockfishEngine.start`, with the
engine ready, posts `position fen …` with no preceding `stop`, refuting
the claim for the `start` operation. -/
theorem claim_C3_counterexample :
    stopBeforePosition
      (startCmds true "rnbqkbnr/pppppppp/8/8/8/8/PPPPPPPP/RNBQKBNR w KQkq - 0 1"
        12 20) = false := rfl

/-- C3 (amended): `analyze` and `findBestMove` always send `stop` before
their `position fen …` command, but `StockfishEngine.start` sends no
`stop` at all and, when the engine is ready, posts `position fen …`
without any preceding `stop`. -/
theorem claim_C3 (w : Bool) (fen : String) (depth : Nat) (skill : Int) :
    stopBeforePosition (analyzeCmds fen depth) = true ∧
    stopBeforePosition (findBestMoveCmds w fen depth skill) = true ∧
    (startCmds w fen depth skill).contains .stop = false ∧
    stopBeforePosition (startCmds true fen depth skill) = false := by
  refine ⟨rfl, ?_, ?_, rfl⟩ <;> cases w <;> rfl

/-- C7: with a null worker, `analyze` totals to one analysis-callback
invocation carrying `fallbackEval fen` as score, a null mate and no best
move, and `findBestMove` resolves to `null`; `findBestMove` also
resolves to `null` when no best-move answer arrives within the
10-second timeout. -/
theorem claim_C7 (fen : String) (depth : Nat) (reply : Option String) :
    analyze false fen depth
      = .fallbackCallback ⟨depth, some (fallbackEval fen), none, none, ""⟩ ∧
    findBestMoveResult false reply = none ∧
    findBestMoveResult true none = none :=
  ⟨rfl, rfl, rfl⟩

/-- C1: every move in the generated legal-move list is accepted by
`applyMove`, and applying it never leaves the moving side's own king
attacked in the resulting position. -/
theorem claim_C1 (st : GameState) (m : Move)
    (hm : m ∈ generateAllLegalMoves st) :
    applyMove st m = some (applyMoveRaw st m) ∧
    kingAttacked (applyMoveRaw st m).board st.turn = false := by
  have h2 : leavesOwnKingInCheck st m = false := by
    unfold generateAllLegalMoves at hm
    have := (List.mem_filter.mp hm).2
    simpa using this
  refine ⟨?_, by simpa [leavesOwnKingInCheck] using h2⟩
  have hmem : m ∈ generateLegalMoves st m.fromSq :=
    List.mem_filter.mpr ⟨hm, by simp⟩
  simp [applyMove, hmem]

/-- C1 witness: the double pawn advance e2–e4 from the initial position. -/
theorem claim_C1_witness :
    applyMove initialGameState e2e4Move
        = some (applyMoveRaw initialGameState e2e4Move) ∧
    kingAttacked (applyMoveRaw initialGameState e2e4Move).board
        initialGameState.turn = false :=
  claim_C1 initialGameState e2e4Move (by decide)

/-- C2: `handleMove` returns `false` and leaves the state (game, move
list, last-move marker, clock) unchanged exactly when the game status is
not `playing` or the move is rejected as illegal; otherwise it installs
the new game, records the move and the marker, starts the clock and
returns `true`. -/
theorem claim_C2 (st : AppState) (fromS toS : String) (p : Option String) :
    ((handleMove st fromS toS p).1 = false ∧ (handleMove st fromS toS p).2 = st ↔
      st.gameStatus ≠ .playing ∨
        moveFromInput st.game fromS toS (promoOrQueen p) = none) ∧
    (∀ m g, st.gameStatus = .playing →
      moveFromInput st.game fromS toS (promoOrQueen p) = some (m, g) →
      handleMove st fromS toS p =
        (true, { st with
                  game := g
                  lastMove := some (fromS, toS)
                  moveList := st.moveList ++ [m]
                  clockRunning := true })) := by
  by_cases hs : st.gameStatus = .playing
  · cases hmv : moveFromInput st.game fromS toS (promoOrQueen p) with
    | none =>
      refine ⟨by simp [handleMove, hs, hmv], ?_⟩
      intro m g _ hmv2
      cases hmv2
    | some mg =>
      obtain ⟨m0, g0⟩ := mg
      refine ⟨by simp [handleMove, hs, hmv], ?_⟩
      intro m g _ hmv2
      simp only [Option.some.injEq, Prod.mk.injEq] at hmv2
      obtain ⟨rfl, rfl⟩ := hmv2
      simp [handleMove, hs, hmv]
  · refine ⟨by simp [handleMove, hs], ?_⟩
    intro m g hps
    exact absurd hps hs

/-- C2 witness: e2–e4 accepted on a fresh game. -/
theorem claim_C2_witness :
    handleMove appState0 "e2" "e4" none =
      (true, { appState0 with
                game := applyMoveRaw initialGameState e2e4Move
                lastMove := some ("e2", "e4")
                moveList := appState0.moveList ++ [e2e4Move]
                clockRunning := true }) :=
  (claim_C2 appState0 "e2" "e4" none).2 e2e4Move
    (applyMoveRaw initialGameState e2e4Move) rfl (by decide)

/-- C8: both best-move handlers invoke their callback only with a
nonempty move different from `"(none)"`; a `bestmove (none)` message
produces no move; and the bot-move handler given an empty move only
clears the thinking flag. -/
theorem claim_C8 (msg m : String) (st : AppState) :
    (bestMoveOfMessage msg = some m → m ≠ "" ∧ m ≠ "(none)") ∧
    (startHandlerBestMove msg = some m → m ≠ "" ∧ m ≠ "(none)") ∧
    bestMoveOfMessage "bestmove (none)" = none ∧
    startHandlerBestMove "bestmove (none)" = none ∧
    handleBotMove st "" = { st with botThinking := false } :=
  ⟨bestMoveOfMessage_filter msg m,
   bestMoveOfMessage_filter msg m,
   by decide, by decide, rfl⟩

/-- C8 witness: the filters evaluated on concrete engine messages. -/
theorem claim_C8_witness :
    (("e2e4" : String) ≠ "" ∧ ("e2e4" : String) ≠ "(none)") ∧
    (("d2d4" : String) ≠ "" ∧ ("d2d4" : String) ≠ "(none)") :=
  ⟨(claim_C8 "bestmove e2e4 ponder e7e5" "e2e4" appState0).1 (by decide),
   (claim_C8 "bestmove d2d4" "d2d4" appState0).2.1 (by decide)⟩

/-- C9: submitting a move without a promotion argument behaves exactly
as submitting it with `'q'`, and the board component's click handler
only ever submits promotion `'q'`. -/
theorem claim_C9 (st : AppState) (fromS toS : String) (g : GameState)
    (o : Color) (sel : Option String) (succ : Bool) (sq : String) :
    handleMove st fromS toS none = handleMove st fromS toS (some "q") ∧
    ((handleSquareClick g o sel succ sq).calledMove.all
      fun x => x.2.2 == "q") = true := by
  constructor
  · rfl
  · cases sel with
    | none => simp [handleSquareClick, selectPhase_calledMove]
    | some sel =>
      simp only [handleSquareClick]
      by_cases hmem : sq ∈ getLegalMovesUI g sel
      · rw [if_pos hmem]
        cases succ
        · simp [selectPhase_calledMove]
        · rfl
      · rw [if_neg hmem]
        simp [selectPhase_calledMove]

/-- C10: the board component invokes `onMove` only when a square is
selected and the clicked square is a legal destination of it (and then
with exactly that pair); and a square becomes selected only when it is
the clicked square and holds a piece whose color matches the board
orientation. -/
theorem claim_C10 (g : GameState) (o : Color) (sel : Option String)
    (succ : Bool) (sq f t p s : String) :
    ((handleSquareClick g o sel succ sq).calledMove = some (f, t, p) →
      sel = some f ∧ t = sq ∧ t ∈ getLegalMovesUI g f) ∧
    ((handleSquareClick g o sel succ sq).selectedSquare = some s →
      s = sq ∧ ∃ pc, getPieceUI g sq = some pc ∧ isMyPiece pc o = true) := by
  cases sel with
  | none =>
    refine ⟨?_, fun h => selectPhase_selected g o sq none s h⟩
    intro h
    rw [handleSquareClick, selectPhase_calledMove] at h
    cases h
  | some sel =>
    simp only [handleSquareClick]
    by_cases hmem : sq ∈ getLegalMovesUI g sel
    · rw [if_pos hmem]
      cases succ
      · refine ⟨?_, fun h => selectPhase_selected g o sq _ s h⟩
        intro h
        rw [if_neg Bool.false_ne_true, selectPhase_calledMove] at h
        simp only [Option.some.injEq, Prod.mk.injEq] at h
        obtain ⟨rfl, rfl, rfl⟩ := h
        exact ⟨rfl, rfl, hmem⟩
      · refine ⟨?_, by intro h; rw [if_pos rfl] at h; cases h⟩
        intro h
        rw [if_pos rfl] at h
        simp only [Option.some.injEq, Prod.mk.injEq] at h
        obtain ⟨rfl, rfl, rfl⟩ := h
        exact ⟨rfl, rfl, hmem⟩
    · rw [if_neg hmem]
      refine ⟨?_, fun h => selectPhase_selected g o sq none s h⟩
      intro h
      rw [selectPhase_calledMove] at h
      cases h

/-- C10 witness: on the initial position, clicking e4 with e2 selected
invokes `onMove ("e2", "e4", "q")`, and clicking e2 selects it. -/
theorem claim_C10_witness :
    ((some "e2" : Option String) = some "e2" ∧ "e4" = "e4" ∧
      "e4" ∈ getLegalMovesUI initialGameState "e2") ∧
    ("e2" = "e2" ∧ ∃ pc, getPieceUI initialGameState "e2" = some pc ∧
      isMyPiece pc .white = true) :=
  ⟨(claim_C10 initialGameState .white (some "e2") true "e4" "e2" "e4" "q" "x").1
      (by decide),
   (claim_C10 initialGameState .white none false "e2" "a" "b" "c" "e2").2
      (by decide)⟩

end UniChess
